import Mathlib

/-!
Shallow embedding of `race.go` from mostafa-asg/race.

The package races several HTTP requests: `Race.Between` launches one
goroutine per request (`makeRequest`), each of which performs the request via
`client.Do` and sends either the `*http.Response` on the unbuffered channel
`onComplete` or the error on the unbuffered channel `onError`.  The
coordinator loops on a two-way `select` over those channels: the first
response wins, errors are accumulated in arrival order, and when
`len(errs) == len(reqs)` the accumulated errors are wrapped into one
`*multierror.Error`.  `Race.FirstThenStart` first launches only `first`,
waits on a three-way `select` (response / warm-up context expiry / error),
and then launches the remaining requests and runs the same loop, except that
the all-failed test compares against `len(reqs)` (the secondaries only) and a
phase-1 error `firstErr`, when present, is prepended to the aggregate.

Requests, responses and operation errors are opaque to the coordinator, so
they are modelled as wrappers around `Nat`.  The nondeterministic arrival
order at the merge point is modelled by passing the coordinator the list of
outcomes in the order they arrive on the channels; a coordinator that
consumes the whole list without returning is blocked forever in a `select`
with no remaining producer, which the model renders as `none`.
-/

namespace RaceGo

/-- An opaque `*http.Request`; the coordinator never inspects it. -/
structure Request where
  id : Nat
deriving DecidableEq, Repr

/-- An opaque `*http.Response`; the coordinator never inspects it. -/
structure Response where
  id : Nat
deriving DecidableEq, Repr

/-- An opaque operation error (the `error` returned by `client.Do`). -/
abbrev Err := Nat

/-- The message one `makeRequest` goroutine sends: a response on
`onComplete` or an error on `onError` (race.go lines 73-81). -/
inductive Outcome where
  | success (res : Response)
  | failure (e : Err)
deriving DecidableEq, Repr

/-- An executor behaviour: what `client.Do` eventually returns for a given
request, `Except.ok` a response or `Except.error` an error. -/
def Exec := Request → Except Err Response

/-- `makeRequest` (race.go lines 73-81): run `client.Do` and route the result
to `onComplete` on success, `onError` on failure.  The model records the one
message the goroutine attempts to send. -/
def makeRequest (exec : Exec) (req : Request) : Outcome :=
  match exec req with
  | .ok res => .success res
  | .error e => .failure e

/-- What a finished race call returns: `some (res?, err?)` models Go's
`return res, nil` / `return nil, allerrors` pair, where the aggregate error
is the ordered list of collected errors inside the `*multierror.Error`;
`none` models a coordinator stuck forever in a `select` none of whose cases
can ever fire. -/
abbrev RaceReturn := Option (Option Response × Option (List Err))

/-- The `select` loop of `Between` (race.go lines 31-46), also counting the
number of channel receives the coordinator performs.  `n` is `len(reqs)`,
`errs` the accumulated errors, and the list holds the outcomes in the order
they arrive at the merge point.  A response returns at once; an error is
appended and, when `len(errs) == len(reqs)`, the errors are wrapped (in
order, unchanged, via `multierror.Append`) and returned.  An exhausted
arrival list means no producer is left to fire either case: the `select`
blocks forever (`none`), having performed one receive per consumed event. -/
def betweenRun (n : Nat) (errs : List Err) : List Outcome → RaceReturn × Nat
  | [] => (none, 0)
  | .success res :: _ => (some (some res, none), 1)
  | .failure e :: rest =>
    let errs' := errs ++ [e]
    if errs'.length = n then
      (some (none, some errs'), 1)
    else
      let r := betweenRun n errs' rest
      (r.1, r.2 + 1)

/-- `Race.Between` (race.go lines 18-47): launch every request, then run the
merge loop starting from an empty error list.  `events` is the arrival order
of the launched goroutines' messages. -/
def Between (reqs : List Request) (events : List Outcome) : RaceReturn :=
  (betweenRun reqs.length [] events).1

/-- The number of channel receives `Between`'s coordinator performs before
returning.  After the `return` statement no code of `Between` runs except the
deferred `cancel`, so these are the only receives that ever match a
producer's send. -/
def betweenReceives (reqs : List Request) (events : List Outcome) : Nat :=
  (betweenRun reqs.length [] events).2

/-- Each of the `len(reqs)` launched goroutines attempts exactly one send on
an unbuffered channel (race.go lines 73-81); a send on an unbuffered channel
completes only when matched by a receive, and the coordinator performs no
receive after returning.  Hence this many producers stay blocked on their
send forever. -/
def betweenBlockedSenders (reqs : List Request) (events : List Outcome) : Nat :=
  reqs.length - betweenReceives reqs events

/-- Which of the three cases of `FirstThenStart`'s phase-1 `select`
(race.go lines 156-165) fires: the primary's outcome arrives on a channel,
or the warm-up context `ctxFirstTimeout` expires first. -/
inductive Phase1Event where
  | primaryDone (o : Outcome)
  | warmUpExpired
deriving DecidableEq, Repr

/-- The phase-2 `select` loop of `FirstThenStart` (race.go lines 173-191).
`m` is `len(reqs)` — the number of SECONDARIES only — and `firstErr` the
error recorded in phase 1, if any.  Identical to `Between`'s loop except that
on `len(errs) == len(reqs)` the aggregate is `firstErr` (when non-nil)
followed by the collected errors. -/
def firstThenStartLoop (m : Nat) (firstErr : Option Err) (errs : List Err) :
    List Outcome → RaceReturn
  | [] => none
  | .success res :: _ => some (some res, none)
  | .failure e :: rest =>
    let errs' := errs ++ [e]
    if errs'.length = m then
      some (none, some (firstErr.toList ++ errs'))
    else
      firstThenStartLoop m firstErr errs' rest

/-- `Race.FirstThenStart` (race.go lines 140-192): launch only `first`; if
its response arrives within the warm-up window, return it at once.
Otherwise (its error arrived, recorded as `firstErr`, or the warm-up
expired) launch all of `reqs` and run the phase-2 loop.  `p2events` is the
arrival order at the phase-2 merge point: outcomes of the secondaries and,
when the primary was still in flight at warm-up expiry, of the primary. -/
def FirstThenStart (first : Request) (reqs : List Request)
    (p1 : Phase1Event) (p2events : List Outcome) : RaceReturn :=
  match p1 with
  | .primaryDone (.success res) => some (some res, none)
  | .primaryDone (.failure e) => firstThenStartLoop reqs.length (some e) [] p2events
  | .warmUpExpired => firstThenStartLoop reqs.length none [] p2events

/-- The requests `FirstThenStart` actually hands to `makeRequest` goroutines:
the primary always (race.go line 152); the secondaries only when phase 1
ended without a response, since `return res, nil` inside the phase-1
`select` leaves the function before the launch loop at lines 169-171. -/
def launchedRequests (first : Request) (reqs : List Request)
    (p1 : Phase1Event) : List Request :=
  match p1 with
  | .primaryDone (.success _) => [first]
  | .primaryDone (.failure _) => first :: reqs
  | .warmUpExpired => first :: reqs

/-- The race-wide cancellation scope of one call: `context.WithTimeout`
(deadline-bounded) or `context.WithCancel` (unbounded). -/
inductive Scope where
  | bounded (d : Int)
  | unbounded
deriving DecidableEq, Repr

/-- The `http.Client` configuration the coordinator reads: only its
`Timeout` field (a `time.Duration`, int64 nanoseconds) matters. -/
structure Client where
  clientTimeout : Int
deriving DecidableEq, Repr

/-- `createContext` (race.go lines 83-89): a deadline-bounded context when
the duration is positive, an unbounded cancellable context otherwise. -/
def createContext (t : Int) : Scope :=
  if t > 0 then .bounded t else .unbounded

/-- The race-wide scope `Between` attaches to every request
(race.go line 19): `createContext(race.client.Timeout)`. -/
def betweenRaceScope (c : Client) : Scope :=
  createContext c.clientTimeout

/-- The race-wide scope `FirstThenStart` attaches to every request
(race.go line 142): always `context.WithCancel(context.Background())`; the
client's `Timeout` field is never consulted, and the warm-up context
`ctxFirstTimeout` is a separate context never attached to a request. -/
def firstThenStartRaceScope (_ : Client) : Scope :=
  .unbounded

/-- The first response to arrive at the merge point, if any. -/
def firstSuccess : List Outcome → Option Response
  | [] => none
  | .success res :: _ => some res
  | .failure _ :: rest => firstSuccess rest

/-- The errors among a list of outcomes, in arrival order. -/
def errsOf : List Outcome → List Err
  | [] => []
  | .success _ :: rest => errsOf rest
  | .failure e :: rest => e :: errsOf rest

/-- The error `client.Do` reports for a request whose shared context was
cancelled by the deadline ("context deadline exceeded"); opaque to the
coordinator, so modelled as a fixed error value. -/
def contextDeadlineExceeded : Err := 77

/-- A response found by `firstSuccess` is a success outcome of the list. -/
theorem firstSuccess_mem {events : List Outcome} {res : Response}
    (h : firstSuccess events = some res) : Outcome.success res ∈ events := by
  induction events with
  | nil => simp [firstSuccess] at h
  | cons o rest ih =>
    cases o with
    | success r =>
      simp [firstSuccess] at h
      subst h
      exact List.mem_cons_self _ _
    | failure e =>
      simp only [firstSuccess] at h
      exact List.mem_cons_of_mem _ (ih h)

/-- A list containing a success outcome has a first success. -/
theorem firstSuccess_isSome_of_mem {events : List Outcome} {res : Response}
    (h : Outcome.success res ∈ events) : ∃ r, firstSuccess events = some r := by
  induction events with
  | nil => simp at h
  | cons o rest ih =>
    cases o with
    | success r => exact ⟨r, rfl⟩
    | failure e =>
      rcases List.mem_cons.mp h with h1 | h2
      · simp at h1
      · simpa [firstSuccess] using ih h2

/-- As long as a success is still to come, the all-failed branch of
`Between`'s loop cannot fire, so the loop reaches the first success and
returns it with a nil error. -/
theorem betweenRun_success (n : Nat) :
    ∀ (events : List Outcome) (acc : List Err) (res : Response),
      firstSuccess events = some res → acc.length + events.length ≤ n →
      (betweenRun n acc events).1 = some (some res, none) := by
  intro events
  induction events with
  | nil => intro acc res h _; simp [firstSuccess] at h
  | cons o rest ih =>
    intro acc res h hle
    cases o with
    | success r =>
      simp [firstSuccess] at h
      subst h
      rfl
    | failure e =>
      simp only [firstSuccess] at h
      have hrest : rest ≠ [] := by
        intro hnil
        rw [hnil] at h
        simp [firstSuccess] at h
      have hlen : 1 ≤ rest.length := by
        cases rest with
        | nil => exact absurd rfl hrest
        | cons _ _ => simp
      have hle' : acc.length + 1 + rest.length ≤ n := by
        simp [List.length_cons] at hle
        omega
      have hne : ¬ acc.length + 1 = n := by omega
      have hstep : (betweenRun n acc (.failure e :: rest)).1 =
          (betweenRun n (acc ++ [e]) rest).1 := by
        simp [betweenRun, hne]
      rw [hstep]
      exact ih (acc ++ [e]) res h (by simp [List.length_append]; omega)

/-- When every remaining outcome is a failure and the accumulated and
remaining counts add up to the batch size, the loop collects every error in
arrival order and returns the aggregate with a nil response. -/
theorem betweenRun_allFail (n : Nat) :
    ∀ (events : List Outcome) (acc : List Err),
      (∀ o ∈ events, ∃ e, o = .failure e) →
      acc.length + events.length = n → events ≠ [] →
      (betweenRun n acc events).1 = some (none, some (acc ++ errsOf events)) := by
  intro events
  induction events with
  | nil => intro acc _ _ hne; exact absurd rfl hne
  | cons o rest ih =>
    intro acc hall hlen _
    cases o with
    | success r =>
      rcases hall _ (List.mem_cons_self _ _) with ⟨e, he⟩
      simp at he
    | failure e =>
      by_cases hr : rest = []
      · subst hr
        have hn : acc.length + 1 = n := by
          simp [List.length_cons] at hlen
          omega
        simp [betweenRun, hn, errsOf]
      · have hrl : 1 ≤ rest.length := by
          cases rest with
          | nil => exact absurd rfl hr
          | cons _ _ => simp
        have hlen' : acc.length + 1 + rest.length = n := by
          simp [List.length_cons] at hlen
          omega
        have hne : ¬ acc.length + 1 = n := by omega
        have hrec := ih (acc ++ [e]) (fun o ho => hall o (List.mem_cons_of_mem _ ho))
          (by simp [List.length_append]; omega) hr
        have hstep : (betweenRun n acc (.failure e :: rest)).1 =
            (betweenRun n (acc ++ [e]) rest).1 := by
          simp [betweenRun, hne]
        rw [hstep, hrec]
        simp [errsOf, List.append_assoc]

/-- A list of failure outcomes contributes one error each. -/
theorem errsOf_length :
    ∀ (events : List Outcome), (∀ o ∈ events, ∃ e, o = .failure e) →
      (errsOf events).length = events.length := by
  intro events
  induction events with
  | nil => intro _; rfl
  | cons o rest ih =>
    intro hall
    cases o with
    | success r =>
      rcases hall _ (List.mem_cons_self _ _) with ⟨e, he⟩
      simp at he
    | failure e =>
      simp [errsOf, ih (fun o ho => hall o (List.mem_cons_of_mem _ ho))]

/-- Every collected error comes from a failure outcome of the list. -/
theorem mem_of_mem_errsOf :
    ∀ {events : List Outcome} {e : Err}, e ∈ errsOf events →
      Outcome.failure e ∈ events := by
  intro events
  induction events with
  | nil => intro e h; simp [errsOf] at h
  | cons o rest ih =>
    intro e h
    cases o with
    | success r => exact List.mem_cons_of_mem _ (ih (by simpa [errsOf] using h))
    | failure e' =>
      rcases List.mem_cons.mp (by simpa [errsOf] using h : e ∈ e' :: errsOf rest) with h1 | h2
      · subst h1; exact List.mem_cons_self _ _
      · exact List.mem_cons_of_mem _ (ih h2)

/-- Error collection distributes over concatenation of arrival orders. -/
theorem errsOf_append :
    ∀ (l1 l2 : List Outcome), errsOf (l1 ++ l2) = errsOf l1 ++ errsOf l2 := by
  intro l1 l2
  induction l1 with
  | nil => rfl
  | cons o rest ih =>
    cases o with
    | success r => simpa [errsOf] using ih
    | failure e => simpa [errsOf] using ih

/-- Wrapping errors as failure outcomes and collecting them is the identity. -/
theorem errsOf_map_failure (l : List Err) : errsOf (l.map .failure) = l := by
  induction l with
  | nil => rfl
  | cons e rest ih => simpa [errsOf] using ih

/-- Collecting a run of identical failures yields the repeated error. -/
theorem errsOf_replicate (k : Nat) (e : Err) :
    errsOf (List.replicate k (.failure e)) = List.replicate k e := by
  induction k with
  | zero => rfl
  | succ k ih => simpa [List.replicate_succ, errsOf] using ih

/-- C1: for a non-empty batch whose launched operations' outcomes arrive in
some order (`events` is a permutation of one outcome per request) with at
least one operation succeeding, `Between` returns the first success to reach
the merge point — a `Response` produced by one of the batch's operations —
paired with a nil error, so exactly one result slot is non-nil. -/
theorem between_first_success_wins (exec : Exec) (reqs : List Request)
    (events : List Outcome)
    (hne : reqs ≠ [])
    (hperm : events.Perm (reqs.map (makeRequest exec)))
    (hs : ∃ req ∈ reqs, ∃ res, exec req = .ok res) :
    ∃ res, Between reqs events = some (some res, none) ∧
      firstSuccess events = some res ∧
      ∃ req ∈ reqs, exec req = .ok res := by
  rcases hs with ⟨req, hreq, res0, hres0⟩
  have hmem : Outcome.success res0 ∈ events := by
    refine hperm.mem_iff.mpr ?_
    refine List.mem_map.mpr ⟨req, hreq, ?_⟩
    simp [makeRequest, hres0]
  rcases firstSuccess_isSome_of_mem hmem with ⟨res, hres⟩
  have hlen : events.length = reqs.length := by
    simpa using hperm.length_eq
  refine ⟨res, ?_, hres, ?_⟩
  · exact betweenRun_success reqs.length events [] res hres (by simp [hlen])
  · have : Outcome.success res ∈ reqs.map (makeRequest exec) :=
      hperm.mem_iff.mp (firstSuccess_mem hres)
    rcases List.mem_map.mp this with ⟨req', hreq', hmk⟩
    refine ⟨req', hreq', ?_⟩
    unfold makeRequest at hmk
    cases hex : exec req' with
    | ok r =>
      rw [hex] at hmk
      simp at hmk
      rw [hmk]
    | error e => rw [hex] at hmk; simp at hmk

/-- C1 witness: a concrete two-request batch where request 0 fails with
error 5 and request 1 succeeds with response 7; the failure arrives first. -/
theorem between_first_success_wins_witness :
    ([⟨0⟩, ⟨1⟩] : List Request) ≠ [] ∧
    ∃ res, Between [⟨0⟩, ⟨1⟩] [.failure 5, .success ⟨7⟩] = some (some res, none) ∧
      firstSuccess [.failure 5, .success ⟨7⟩] = some res ∧
      ∃ req ∈ ([⟨0⟩, ⟨1⟩] : List Request),
        (fun req : Request => if req.id = 0 then (.error 5 : Except Err Response)
          else .ok ⟨7⟩) req = .ok res :=
  ⟨by decide,
   between_first_success_wins
     (fun req => if req.id = 0 then .error 5 else .ok ⟨7⟩)
     [⟨0⟩, ⟨1⟩] [.failure 5, .success ⟨7⟩]
     (by decide) (by decide) ⟨⟨1⟩, by decide, ⟨7⟩, rfl⟩⟩

/-- C5: for a non-empty batch where every operation fails, `Between` returns
a nil response and an AggregateError holding exactly one error per request,
in the order the failures arrived at the merge point, each being some
operation's underlying error unchanged. -/
theorem between_all_fail_aggregates (exec : Exec) (reqs : List Request)
    (events : List Outcome)
    (hne : reqs ≠ [])
    (hperm : events.Perm (reqs.map (makeRequest exec)))
    (hfail : ∀ req ∈ reqs, ∃ e, exec req = .error e) :
    Between reqs events = some (none, some (errsOf events)) ∧
    (errsOf events).length = reqs.length ∧
    ∀ e ∈ errsOf events, ∃ req ∈ reqs, exec req = .error e := by
  have hall : ∀ o ∈ events, ∃ e, o = .failure e := by
    intro o ho
    rcases List.mem_map.mp (hperm.mem_iff.mp ho) with ⟨req, hreq, hmk⟩
    rcases hfail req hreq with ⟨e, he⟩
    exact ⟨e, by rw [← hmk]; simp [makeRequest, he]⟩
  have hlen : events.length = reqs.length := by
    simpa using hperm.length_eq
  have hnil : events ≠ [] := by
    intro h0
    rw [h0] at hlen
    cases reqs with
    | nil => exact hne rfl
    | cons _ _ => simp at hlen
  refine ⟨?_, ?_, ?_⟩
  · have := betweenRun_allFail reqs.length events [] hall (by simp [hlen]) hnil
    simpa [Between] using this
  · rw [errsOf_length events hall, hlen]
  · intro e he
    rcases List.mem_map.mp (hperm.mem_iff.mp (mem_of_mem_errsOf he)) with ⟨req, hreq, hmk⟩
    refine ⟨req, hreq, ?_⟩
    unfold makeRequest at hmk
    cases hex : exec req with
    | ok r => rw [hex] at hmk; simp at hmk
    | error e' =>
      rw [hex] at hmk
      simp at hmk
      rw [hmk]

/-- C5 witness: two requests, both failing (errors 0 and 1), with request
1's error arriving first: the aggregate is `[1, 0]`, completion order. -/
theorem between_all_fail_aggregates_witness :
    ([⟨0⟩, ⟨1⟩] : List Request) ≠ [] ∧
    (Between [⟨0⟩, ⟨1⟩] [.failure 1, .failure 0] =
        some (none, some (errsOf [.failure 1, .failure 0])) ∧
      (errsOf [.failure 1, .failure 0]).length = ([⟨0⟩, ⟨1⟩] : List Request).length ∧
      ∀ e ∈ errsOf [.failure 1, .failure 0], ∃ req ∈ ([⟨0⟩, ⟨1⟩] : List Request),
        (fun req : Request => (.error req.id : Except Err Response)) req = .error e) :=
  ⟨by decide,
   between_all_fail_aggregates (fun req => .error req.id) [⟨0⟩, ⟨1⟩]
     [.failure 1, .failure 0] (by decide) (by decide)
     (fun req _ => ⟨req.id, rfl⟩)⟩

/-- C2 counterexample: the scenario of TestBetweenFailAndTimeoutReq — two
requests raced with `client.Timeout` set; request 1 fails with error 5
before the deadline, then the deadline expires and makes the still-pending
request 0 fail with the context deadline error, which arrives on `onError`
like any operation failure.  `Between` returns exactly the aggregated
per-operation error collection (the `*multierror.Error` with both errors),
not a distinct Timeout value: the select loop at race.go lines 32-46 has no
deadline case at all, contradicting the claim that the result on deadline
expiry is never the aggregated collection. -/
theorem between_deadline_cex :
    Between [⟨0⟩, ⟨1⟩] [.failure 5, .failure contextDeadlineExceeded] =
      some (none, some (errsOf [.failure 5, .failure contextDeadlineExceeded])) ∧
    errsOf [.failure 5, .failure contextDeadlineExceeded] =
      [5, contextDeadlineExceeded] := by decide

/-- C2 amended: when the deadline derived from `client.Timeout` expires
before any success, every still-pending request fails with the context
deadline error; those errors reach the coordinator through `onError`, and
once one error per request has arrived `Between` returns the AggregateError
containing the pre-deadline failures followed by the deadline errors — one
entry per request.  No distinct Timeout value exists in the code. -/
theorem between_deadline_returns_aggregate (reqs : List Request)
    (preErrs : List Err) (hlt : preErrs.length < reqs.length) :
    Between reqs (preErrs.map .failure ++
        List.replicate (reqs.length - preErrs.length) (.failure contextDeadlineExceeded)) =
      some (none, some (preErrs ++
        List.replicate (reqs.length - preErrs.length) contextDeadlineExceeded)) := by
  have hall : ∀ o ∈ (preErrs.map Outcome.failure ++
      List.replicate (reqs.length - preErrs.length) (.failure contextDeadlineExceeded)),
      ∃ e, o = .failure e := by
    intro o ho
    rcases List.mem_append.mp ho with h1 | h2
    · rcases List.mem_map.mp h1 with ⟨e, _, he⟩
      exact ⟨e, he.symm⟩
    · exact ⟨contextDeadlineExceeded, List.eq_of_mem_replicate h2⟩
  have hlen : (preErrs.map Outcome.failure ++
      List.replicate (reqs.length - preErrs.length)
        (Outcome.failure contextDeadlineExceeded)).length = reqs.length := by
    rw [List.length_append, List.length_map, List.length_replicate]
    omega
  have hnil : (preErrs.map Outcome.failure ++
      List.replicate (reqs.length - preErrs.length)
        (Outcome.failure contextDeadlineExceeded)) ≠ [] := by
    intro h0
    have h1 := congrArg List.length h0
    rw [hlen] at h1
    simp only [List.length_nil] at h1
    omega
  have := betweenRun_allFail reqs.length _ [] hall (by simpa using hlen) hnil
  simpa [Between, errsOf_append, errsOf_map_failure, errsOf_replicate] using this

/-- C2 amended witness: two requests, one pre-deadline failure (error 5);
the deadline error fills the remaining slot and the aggregate has both. -/
theorem between_deadline_returns_aggregate_witness :
    ([5] : List Err).length < ([⟨0⟩, ⟨1⟩] : List Request).length ∧
    Between [⟨0⟩, ⟨1⟩] ([5].map .failure ++
        List.replicate (([⟨0⟩, ⟨1⟩] : List Request).length - ([5] : List Err).length)
          (.failure contextDeadlineExceeded)) =
      some (none, some ([5] ++
        List.replicate (([⟨0⟩, ⟨1⟩] : List Request).length - ([5] : List Err).length)
          contextDeadlineExceeded)) :=
  ⟨by decide, between_deadline_returns_aggregate [⟨0⟩, ⟨1⟩] [5] (by decide)⟩

/-- C6 counterexample: on the empty batch `Between` does not fail
immediately with an empty AggregateError; no goroutine is launched, so no
outcome can ever arrive, and the select loop blocks forever (`none`). -/
theorem between_empty_cex :
    Between [] [] ≠ some (none, some []) ∧ Between [] [] = none := by decide

/-- C6 amended: for the empty batch the only possible arrival sequence is
the empty one (there are no producers), and `Between` never returns: the
all-failed test `len(errs) == len(reqs)` sits inside the `onError` case and
is never reached, so the coordinator blocks forever in its select. -/
theorem between_empty_blocks (exec : Exec) (events : List Outcome)
    (hperm : events.Perm (([] : List Request).map (makeRequest exec))) :
    Between [] events = none := by
  have : events = [] := List.Perm.eq_nil hperm
  rw [this]
  rfl

/-- C6 amended witness: the empty batch with the empty arrival sequence. -/
theorem between_empty_blocks_witness :
    Between [] [] = none :=
  between_empty_blocks (fun _ => .error 0) [] (List.Perm.nil)

/-- C7: when the primary's response arrives within the warm-up window, the
phase-1 select returns it at once with a nil error; the secondary launch
loop below the select is never reached, so exactly one request — the
primary — was ever handed to a `makeRequest` goroutine. -/
theorem firstThenStart_primary_success (first : Request) (reqs : List Request)
    (res : Response) (p2events : List Outcome) :
    FirstThenStart first reqs (.primaryDone (.success res)) p2events =
      some (some res, none) ∧
    launchedRequests first reqs (.primaryDone (.success res)) = [first] ∧
    (launchedRequests first reqs (.primaryDone (.success res))).length = 1 :=
  ⟨rfl, rfl, rfl⟩

/-- C4 counterexample: primary ⟨0⟩ fails with error 3 and the secondary
list is empty.  Phase 2 launches nothing and the primary has already
delivered its outcome, so no event can ever arrive; the call blocks forever
(`none`) instead of returning the AggregateError `[3]`. -/
theorem firstThenStart_empty_secondaries_cex :
    FirstThenStart ⟨0⟩ [] (.primaryDone (.failure 3)) [] ≠ some (none, some [3]) ∧
    FirstThenStart ⟨0⟩ [] (.primaryDone (.failure 3)) [] = none := by decide

/-- C4 amended: with an empty secondary list and a failed primary,
`FirstThenStart` never returns.  The all-failed test `len(errs) == len(reqs)`
(race.go line 182) is only evaluated upon receiving an error, and with no
producer left no error ever arrives, so the phase-2 select blocks forever;
the recorded primary error `firstErr` is never surfaced. -/
theorem firstThenStart_empty_secondaries_blocks (first : Request) (e : Err) :
    FirstThenStart first [] (.primaryDone (.failure e)) [] = none :=
  rfl

/-- C3 failing run: warm-up expires with primary ⟨0⟩ still pending, so
`firstErr` stays nil; then the primary fails (error 10), then secondary ⟨1⟩
fails (error 11), and secondary ⟨2⟩'s failure (error 12) is still to come.
The primary's error is counted against the secondary quota
`len(errs) == len(reqs)`, so the call returns an AggregateError of 2 errors
`[10, 11]` — not the claimed `1 + len(secondaries) = 3` — omitting the
primary-error prepend (`firstErr` is nil) and secondary ⟨2⟩'s error, while
secondary ⟨2⟩ is still in flight. -/
theorem firstThenStart_warmup_miscount :
    FirstThenStart ⟨0⟩ [⟨1⟩, ⟨2⟩] .warmUpExpired
        [.failure 10, .failure 11, .failure 12] =
      some (none, some [10, 11]) ∧
    ([10, 11] : List Err).length ≠ 1 + ([⟨1⟩, ⟨2⟩] : List Request).length := by decide

/-- C8 failing run: same miscounting path — warm-up expires, primary ⟨0⟩
fails (error 10), secondary ⟨1⟩ fails (error 11), and the coordinator
returns an aggregated failure although launched secondary ⟨2⟩ is still
pending; the next arrival would in fact have been ⟨2⟩'s success ⟨99⟩.
This contradicts the claim that an aggregated error is only returned once
every launched operation has failed. -/
theorem firstThenStart_premature_failure :
    FirstThenStart ⟨0⟩ [⟨1⟩, ⟨2⟩] .warmUpExpired
        [.failure 10, .failure 11, .success ⟨99⟩] =
      some (none, some [10, 11]) ∧
    firstSuccess [.failure 10, .failure 11, .success ⟨99⟩] = some ⟨99⟩ ∧
    (launchedRequests ⟨0⟩ [⟨1⟩, ⟨2⟩] .warmUpExpired).length = 3 := by decide

/-- C9 counterexample: two launched requests, the first outcome to arrive
is a success.  `Between` returns after a single receive; the other
goroutine's send on the unbuffered channel is never matched — the
coordinator performs no receive after returning — so one producer stays
blocked forever, contradicting the claim that every producer can always
complete its send. -/
theorem between_leaks_cex :
    Between [⟨0⟩, ⟨1⟩] [.success ⟨7⟩] = some (some ⟨7⟩, none) ∧
    betweenReceives [⟨0⟩, ⟨1⟩] [.success ⟨7⟩] = 1 ∧
    betweenBlockedSenders [⟨0⟩, ⟨1⟩] [.success ⟨7⟩] = 1 := by decide

/-- C9 amended: nothing drains the channels after `Between` returns — the
only code after `return` is the deferred `cancel()` — so whenever the first
arrival is a success and at least two operations were launched, the
coordinator has performed exactly one receive and at least one launched
producer remains blocked forever on its unbuffered send (a goroutine
leak). -/
theorem between_success_leaves_senders_blocked (reqs : List Request)
    (res : Response) (rest : List Outcome) (hlen : 2 ≤ reqs.length) :
    betweenReceives reqs (.success res :: rest) = 1 ∧
    0 < betweenBlockedSenders reqs (.success res :: rest) := by
  have hrec : betweenReceives reqs (.success res :: rest) = 1 := rfl
  refine ⟨hrec, ?_⟩
  unfold betweenBlockedSenders
  rw [hrec]
  omega

/-- C9 amended witness: three launched requests whose first arrival is a
success leave the coordinator with one receive and blocked producers. -/
theorem between_success_leaves_senders_blocked_witness :
    2 ≤ ([⟨0⟩, ⟨1⟩, ⟨2⟩] : List Request).length ∧
    (betweenReceives [⟨0⟩, ⟨1⟩, ⟨2⟩] (.success ⟨9⟩ :: []) = 1 ∧
      0 < betweenBlockedSenders [⟨0⟩, ⟨1⟩, ⟨2⟩] (.success ⟨9⟩ :: [])) :=
  ⟨by decide, between_success_leaves_senders_blocked [⟨0⟩, ⟨1⟩, ⟨2⟩] ⟨9⟩ [] (by decide)⟩

/-- C10: `Between` derives the race-wide scope from the client's `Timeout`
field via `createContext` — deadline-bounded when positive, unbounded
otherwise — whereas `FirstThenStart` always builds the race-wide scope with
`context.WithCancel`, unbounded for every client. -/
theorem race_scope_derivation (c : Client) :
    (0 < c.clientTimeout → betweenRaceScope c = .bounded c.clientTimeout) ∧
    (c.clientTimeout ≤ 0 → betweenRaceScope c = .unbounded) ∧
    firstThenStartRaceScope c = .unbounded := by
  refine ⟨?_, ?_, rfl⟩
  · intro h
    simp [betweenRaceScope, createContext, h]
  · intro h
    have : ¬ c.clientTimeout > 0 := by omega
    simp [betweenRaceScope, createContext, this]

/-- C10 witness: a client with Timeout 5 gets a bounded scope from
`Between` and an unbounded one from `FirstThenStart`; a client with
Timeout 0 gets an unbounded scope from `Between`. -/
theorem race_scope_derivation_witness :
    betweenRaceScope ⟨5⟩ = .bounded 5 ∧ betweenRaceScope ⟨0⟩ = .unbounded ∧
    firstThenStartRaceScope ⟨5⟩ = .unbounded :=
  ⟨(race_scope_derivation ⟨5⟩).1 (by decide),
   (race_scope_derivation ⟨0⟩).2.1 (by decide),
   (race_scope_derivation ⟨5⟩).2.2⟩

end RaceGo
